import Mathlib

/-!
Verification development for the fabrication-constrained discretization engine of
the fdtdx repository.

The core of the development is a shallow embedding of
src/fdtdx/objects/device/parameters/discretization.py: the brush-constraint
fixed-point solver (BrushConstraint2D._generator), the surrounding
BrushConstraint2D.__call__ wrapper, the ClosestIndex discretizer and the
PillarDiscretization discretizer, together with the container reset function of
src/fdtdx/fdtd/container.py.

Boolean 2D arrays are embedded as finite sets of integer coordinate pairs
restricted to a rectangular grid; continuous arrays are functions into the
rationals.  The jax while loop is embedded as a fuel-indexed iteration returning
an Option, so that non-termination of the source loop is visible as a none
result for every fuel.  Helper functions of the repository that are not part of
the provided sources (binary dilation, the material catalog helpers, the
nearest-index search and the straight-through estimator) are modelled from the
specification; each such definition carries a doc comment saying so.
-/

namespace Fdtdx

/-- Grid positions of a 2D slice, as integer coordinates (row, column). -/
abbrev Pos := ℤ × ℤ

/-- The rectangular grid of an m-by-n array: all positions with
0 ≤ row < m and 0 ≤ col < n. -/
def grid (m n : ℕ) : Finset Pos :=
  (Finset.Ico (0 : ℤ) (m : ℤ)) ×ˢ (Finset.Ico (0 : ℤ) (n : ℤ))

/-- Context of one brush-constraint solver run: the slice dimensions, the brush
(as a finite set of offsets of its footprint relative to the center) and the
continuous 2D value slice. -/
structure BrushCtx where
  m : ℕ
  n : ℕ
  brush : Finset Pos
  arr : Pos → ℚ

/-- Modelled from the spec: dilate_jax (fdtdx.objects.device.parameters
.binary_transform is not part of the provided sources).  Binary dilation of a
boolean field by the brush: a position is true iff some true value of the field
lies within the brush footprint centered at that position, with zero padding
(positions outside the grid are false). -/
def dilate (c : BrushCtx) (A : Finset Pos) : Finset Pos :=
  (grid c.m c.n).filter fun p => ∃ b ∈ c.brush, (p.1 + b.1, p.2 + b.2) ∈ A

/-- pixel_existing_solid of BrushConstraint2D._generator. -/
def pixel_existing_solid (c : BrushCtx) (s : Finset Pos) : Finset Pos :=
  dilate c s

/-- pixel_existing_void of BrushConstraint2D._generator. -/
def pixel_existing_void (c : BrushCtx) (v : Finset Pos) : Finset Pos :=
  dilate c v

/-- touch_impossible_solid of BrushConstraint2D._generator. -/
def touch_impossible_solid (c : BrushCtx) (v : Finset Pos) : Finset Pos :=
  dilate c (pixel_existing_void c v)

/-- touch_impossible_void of BrushConstraint2D._generator. -/
def touch_impossible_void (c : BrushCtx) (s : Finset Pos) : Finset Pos :=
  dilate c (pixel_existing_solid c s)

/-- touch_valid_solid of BrushConstraint2D._generator. -/
def touch_valid_solid (c : BrushCtx) (v s : Finset Pos) : Finset Pos :=
  (grid c.m c.n).filter fun p => p ∉ touch_impossible_solid c v ∧ p ∉ s

/-- touch_valid_void of BrushConstraint2D._generator. -/
def touch_valid_void (c : BrushCtx) (v s : Finset Pos) : Finset Pos :=
  (grid c.m c.n).filter fun p => p ∉ touch_impossible_void c s ∧ p ∉ v

/-- pixel_possible_solid of BrushConstraint2D._generator. -/
def pixel_possible_solid (c : BrushCtx) (v s : Finset Pos) : Finset Pos :=
  dilate c (s ∪ touch_valid_solid c v s)

/-- pixel_possible_void of BrushConstraint2D._generator. -/
def pixel_possible_void (c : BrushCtx) (v s : Finset Pos) : Finset Pos :=
  dilate c (v ∪ touch_valid_void c v s)

/-- pixel_required_solid of BrushConstraint2D._generator. -/
def pixel_required_solid (c : BrushCtx) (v s : Finset Pos) : Finset Pos :=
  (grid c.m c.n).filter fun p =>
    p ∉ pixel_existing_solid c s ∧ p ∉ pixel_possible_void c v s

/-- pixel_required_void of BrushConstraint2D._generator. -/
def pixel_required_void (c : BrushCtx) (v s : Finset Pos) : Finset Pos :=
  (grid c.m c.n).filter fun p =>
    p ∉ pixel_existing_void c v ∧ p ∉ pixel_possible_solid c v s

/-- touch_resolving_solid of BrushConstraint2D._generator. -/
def touch_resolving_solid (c : BrushCtx) (v s : Finset Pos) : Finset Pos :=
  dilate c (pixel_required_solid c v s) ∩ touch_valid_solid c v s

/-- touch_resolving_void of BrushConstraint2D._generator. -/
def touch_resolving_void (c : BrushCtx) (v s : Finset Pos) : Finset Pos :=
  dilate c (pixel_required_void c v s) ∩ touch_valid_void c v s

/-- touch_free_solid of BrushConstraint2D._generator. -/
def touch_free_solid (c : BrushCtx) (v s : Finset Pos) : Finset Pos :=
  ((grid c.m c.n).filter fun p =>
    p ∉ dilate c (pixel_possible_void c v s ∪ pixel_existing_void c v)) ∩
    touch_valid_solid c v s

/-- touch_free_void of BrushConstraint2D._generator. -/
def touch_free_void (c : BrushCtx) (v s : Finset Pos) : Finset Pos :=
  ((grid c.m c.n).filter fun p =>
    p ∉ dilate c (pixel_possible_solid c v s ∪ pixel_existing_solid c s)) ∩
    touch_valid_void c v s

/-- Fold computing the first maximum of g over a list of candidates, mirroring
jnp.argmax and jnp.max over a flattened array: the accumulator is replaced
exactly when a strictly larger value is seen, so on ties the earliest candidate
is kept.  The second component of the result is the running maximum. -/
def bestFold {ι : Type*} {β : Type*} [LinearOrder β] (g : ι → β) :
    List ι → ι × β → ι × β
  | [], acc => acc
  | i :: rest, acc => bestFold g rest (if acc.2 < g i then (i, g i) else acc)

/-- Row-major flat index of a position in an m-by-n array, as used by
jnp flatten. -/
def flatIdx (n : ℕ) (p : Pos) : ℤ := p.1 * (n : ℤ) + p.2

/-- The grid positions in row-major (flattened) order: entry k is
(k / n, k % n). -/
def gridList (m n : ℕ) : List Pos :=
  (List.range (m * n)).map fun k => (((k / n : ℕ) : ℤ), ((k % n : ℕ) : ℤ))

/-- Value of the masked array jnp.where(mask, f, -inf) at a position. -/
def maskVal (mask : Finset Pos) (f : Pos → ℚ) (p : Pos) : WithBot ℚ :=
  if p ∈ mask then (f p : WithBot ℚ) else ⊥

/-- jnp.max of the masked array jnp.where(mask, f, -inf) over the whole
m-by-n slice. -/
def maskMax (c : BrushCtx) (mask : Finset Pos) (f : Pos → ℚ) : WithBot ℚ :=
  (bestFold (maskVal mask f) (gridList c.m c.n) (((0 : ℤ), (0 : ℤ)), ⊥)).2

/-- jnp.argmax of the masked array jnp.where(mask, f, -inf): the first position
in row-major order attaining the maximum (position (0, 0) if the slice is
all -inf, matching argmax of a constant array returning index 0). -/
def argmaxPos (c : BrushCtx) (mask : Finset Pos) (f : Pos → ℚ) : Pos :=
  (bestFold (maskVal mask f) (gridList c.m c.n) (((0 : ℤ), (0 : ℤ)), ⊥)).1

/-- Common body of select_best_resolving_touch (case 2, applied to the
resolving masks) and select_best_valid_touch (case 3, applied to the valid
masks) of BrushConstraint2D._generator: compare the maximum of arr over the
solid mask with the maximum of -arr over the void mask; if the solid maximum is
strictly greater commit the solid argmax, otherwise commit the void argmax. -/
def selectBestTouch (c : BrushCtx) (solidMask voidMask : Finset Pos)
    (v s : Finset Pos) : Finset Pos × Finset Pos :=
  let maxS := maskMax c solidMask c.arr
  let maxV := maskMax c voidMask (fun p => -c.arr p)
  if maxV < maxS then (v, insert (argmaxPos c solidMask c.arr) s)
  else (insert (argmaxPos c voidMask (fun p => -c.arr p)) v, s)

/-- body_fn of BrushConstraint2D._generator: case 1 (all free touches) if any
free touch exists, else case 2 (best resolving touch) if any resolving touch
exists, else case 3 (best valid touch).  The state is the pair
(touches_void, touches_solid) exactly as in the source. -/
def bodyFn (c : BrushCtx) (st : Finset Pos × Finset Pos) :
    Finset Pos × Finset Pos :=
  let v := st.1
  let s := st.2
  if (touch_free_solid c v s ∪ touch_free_void c v s).Nonempty then
    (v ∪ touch_free_void c v s, s ∪ touch_free_solid c v s)
  else if (touch_resolving_solid c v s ∪ touch_resolving_void c v s).Nonempty
  then
    selectBestTouch c (touch_resolving_solid c v s)
      (touch_resolving_void c v s) v s
  else
    selectBestTouch c (touch_valid_solid c v s) (touch_valid_void c v s) v s

/-- cond_fn of BrushConstraint2D._generator: the loop continues while not every
pixel is covered by the dilation of a committed field. -/
def loopCond (c : BrushCtx) (st : Finset Pos × Finset Pos) : Bool :=
  !(decide (grid c.m c.n ⊆
    pixel_existing_solid c st.2 ∪ pixel_existing_void c st.1))

/-- The jax while loop of BrushConstraint2D._generator, embedded with explicit
fuel: some final state if the loop exits within the given number of iterations,
none otherwise. -/
def runLoop (c : BrushCtx) : ℕ → Finset Pos × Finset Pos →
    Option (Finset Pos × Finset Pos)
  | 0, st => if loopCond c st then none else some st
  | fuel + 1, st =>
    if loopCond c st then runLoop c fuel (bodyFn c st) else some st

/-- Initial loop state of BrushConstraint2D._generator: both committed fields
all false. -/
def loopStart : Finset Pos × Finset Pos := (∅, ∅)

/-- BrushConstraint2D._generator: run the fixed-point loop from the empty state
and return the dilation of the final committed-solid field. -/
def generator (c : BrushCtx) (fuel : ℕ) : Option (Finset Pos) :=
  (runLoop c fuel loopStart).map fun st => dilate c st.2

/-! ### Material catalog

The material helpers (fdtdx.materials and fdtdx.core.misc) are not part of the
provided sources; they are modelled from the specification, section 4.1. -/

/-- Modelled from the spec: a named material with a scalar permittivity and an
air flag (the catalog designates which entry is the air/void material). -/
structure Material where
  name : String
  permittivity : ℚ
  is_air : Bool

/-- Key of the canonical name ordering: the list of character codepoints of a
name, compared lexicographically — the standard string ordering. -/
def nameKey (s : String) : List ℕ := s.data.map Char.toNat

/-- Modelled from the spec: compute_ordered_names returns the material names in
a canonical, deterministic name ordering (sorted lexicographically by
codepoints, the standard string ordering). -/
def compute_ordered_names (mats : List Material) : List String :=
  (mats.map (·.name)).insertionSort fun a b => nameKey a ≤ nameKey b

/-- Modelled from the spec: compute_allowed_permittivities returns one
permittivity per material, ordered by the canonical name ordering. -/
def compute_allowed_permittivities (mats : List Material) : List ℚ :=
  (compute_ordered_names mats).filterMap fun nm =>
    (mats.find? fun mt => mt.name = nm).map (·.permittivity)

/-- Modelled from the spec: get_air_name returns the name of the material
flagged as air, the first match in canonical order, and fails with a
configuration error if no air material is present. -/
def get_air_name (mats : List Material) : Except String String :=
  match (compute_ordered_names mats).find? (fun nm =>
      mats.any fun mt => mt.name = nm && mt.is_air) with
  | some nm => .ok nm
  | none => .error "ConfigurationError: no air material in children"

/-! ### BrushConstraint2D.__call__ -/

/-- Input of a discretization call: either a single tensor (here of arbitrary
rank: a shape together with a value for every index list) or a name-keyed
collection of tensors. -/
inductive ParamInput where
  | single (shape : List ℕ) (data : List ℕ → ℚ)
  | multi (entries : List (String × (List ℕ → ℚ)))

/-- The BrushConstraint2D module: its brush, its constraint axis and its
material catalog. -/
structure Brush2DModule where
  brush : Finset Pos
  axis : Fin 3
  mats : List Material

/-- Dimensions of the 2D slice obtained by dropping the constraint axis from a
rank-3 shape. -/
def sliceDims (axis : Fin 3) (shape : List ℕ) : ℕ × ℕ :=
  match axis with
  | 0 => (shape.getD 1 0, shape.getD 2 0)
  | 1 => (shape.getD 0 0, shape.getD 2 0)
  | 2 => (shape.getD 0 0, shape.getD 1 0)

/-- jnp.take(input, 0, axis): the 2D slice of a rank-3 tensor at index 0 of
the constraint axis. -/
def sliceData (axis : Fin 3) (data : List ℕ → ℚ) : Pos → ℚ :=
  match axis with
  | 0 => fun p => data [0, p.1.toNat, p.2.toNat]
  | 1 => fun p => data [p.1.toNat, 0, p.2.toNat]
  | 2 => fun p => data [p.1.toNat, p.2.toNat, 0]

/-- jnp.expand_dims of a 2D integer mask back to rank 3 along the constraint
axis: the value of the result at a (i, j, k) index triple. -/
def expandDims (axis : Fin 3) (cur : Pos → ℕ) : ℕ × ℕ × ℕ → ℕ :=
  match axis with
  | 0 => fun t => cur ((t.2.1 : ℤ), (t.2.2 : ℤ))
  | 1 => fun t => cur ((t.1 : ℤ), (t.2.2 : ℤ))
  | 2 => fun t => cur ((t.1 : ℤ), (t.2.1 : ℤ))

/-- The solver context built by BrushConstraint2D.__call__ from a rank-3 input:
the 2D slice at index 0 of the constraint axis, with the module's brush. -/
def callCtx (mod : Brush2DModule) (shape : List ℕ) (data : List ℕ → ℚ) :
    BrushCtx :=
  ⟨(sliceDims mod.axis shape).1, (sliceDims mod.axis shape).2, mod.brush,
    sliceData mod.axis data⟩

/-- BrushConstraint2D.__call__: raise on a multi-tensor input, on more than two
materials, on a rank other than 3 and on a constraint-axis size other than 1;
then take the 2D slice, run the generator (the embedded loop carries explicit
fuel, and a loop that does not finish yields an ok none rather than an error,
matching a source loop that never raises), subtract the generator mask from 1,
invert again if the air material is not at index 0, re-expand the constraint
axis and pass the result through the straight-through estimator (whose forward
value is the discrete mask itself). -/
def brushCall (mod : Brush2DModule) (fuel : ℕ) (inp : ParamInput) :
    Except String (Option (ℕ × ℕ × ℕ → ℕ)) :=
  match inp with
  | .multi _ => .error
      "BrushConstraint2D cannot be used with latent parameters that contain multiple entries"
  | .single shape data =>
    if mod.mats.length > 2 then
      .error "BrushConstraint2D currently only implemented for single material and air"
    else if shape.length ≠ 3 then
      .error "BrushConstraint2D Generator can only work with 2D-Arrays"
    else if shape.getD mod.axis 0 ≠ 1 then
      .error "BrushConstraint2D Generator needs array size 1 in axis"
    else
      match generator (callCtx mod shape data) fuel with
      | none => .ok none
      | some mask =>
        match get_air_name mod.mats with
        | .error e => .error e
        | .ok air_name =>
          let ordered := compute_ordered_names mod.mats
          let air_idx := ordered.indexOf air_name
          let cur : Pos → ℕ := fun p => 1 - (if p ∈ mask then 1 else 0)
          let cur2 : Pos → ℕ := if air_idx ≠ 0 then (fun p => 1 - cur p) else cur
          .ok (some (expandDims mod.axis cur2))

/-- Value of a brushCall result at an index triple, when the call succeeded and
the loop finished. -/
def callValueAt (r : Except String (Option (ℕ × ℕ × ℕ → ℕ)))
    (t : ℕ × ℕ × ℕ) : Option ℕ :=
  match r with
  | .ok (some f) => some (f t)
  | _ => none

/-! ### ClosestIndex -/

/-- jnp.argmin over the values g 0, ..., g (len - 1), returning the first index
attaining the minimum, embedded as the first maximum of the negated values. -/
def argminIdx (g : ℕ → ℚ) (len : ℕ) : ℕ :=
  (bestFold (fun i => ((-g i : ℚ) : WithBot ℚ)) (List.range len) (0, ⊥)).1

/-- ClosestIndex.__call__ on a single tensor (positions of arbitrary index type
α): per position, the index of the allowed inverse permittivity (one over the
ordered allowed permittivities) with minimal absolute difference to the input
value, the first such index on ties. -/
def closestIndex {α : Type*} (mats : List Material) (arrv : α → ℚ) : α → ℕ :=
  fun p =>
    let allowed := (compute_allowed_permittivities mats).map fun q => 1 / q
    argminIdx (fun i => |arrv p - allowed.getD i 0|) allowed.length

/-! ### PillarDiscretization -/

/-- Column of a rank-3 tensor along the given axis at plane position (i, j). -/
def columnAt (axis : Fin 3) (d0 d1 d2 : ℕ) (data : ℕ × ℕ × ℕ → ℚ)
    (i j : ℕ) : List ℚ :=
  match axis with
  | 0 => (List.range d0).map fun t => data (t, i, j)
  | 1 => (List.range d1).map fun t => data (i, t, j)
  | 2 => (List.range d2).map fun t => data (i, j, t)

/-- Modelled from the spec: nearest_index restricted by an allowed-index table
(fdtdx.objects.device.parameters.utils is not part of the provided sources).
Per column, the index of the table row minimizing the distance metric, ties to
the lower index. -/
def nearestRow (metric : List ℚ → List ℕ → ℚ) (table : List (List ℕ))
    (col : List ℚ) : ℕ :=
  argminIdx (fun r => metric col (table.getD r [])) table.length

/-- The pillar result before the final transposition: the selected table row
laid out with the layer dimension last, exactly as allowed_indices indexed by
the nearest-row tensor. -/
def pillarResult3 (axis : Fin 3) (d0 d1 d2 : ℕ) (data : ℕ × ℕ × ℕ → ℚ)
    (table : List (List ℕ)) (metric : List ℚ → List ℕ → ℚ) :
    ℕ × ℕ × ℕ → ℕ :=
  fun t =>
    (table.getD (nearestRow metric table
      (columnAt axis d0 d1 d2 data t.1 t.2.1)) []).getD t.2.2 0

/-- The final transposition of PillarDiscretization.__call__: identity for
axis 2, swap of the last two axes for axis 1 (jnp.transpose with axes
(0, 2, 1)), rotation of all three axes for axis 0 (jnp.transpose with axes
(2, 0, 1)). -/
def transposeForAxis (axis : Fin 3) (f : ℕ × ℕ × ℕ → ℕ) : ℕ × ℕ × ℕ → ℕ :=
  match axis with
  | 0 => fun t => f (t.2.1, t.2.2, t.1)
  | 1 => fun t => f (t.1, t.2.2, t.2.1)
  | 2 => f

/-- PillarDiscretization.__call__ on a single tensor: per column perpendicular
to the axis, select the nearest allowed column of the table, lay the rows out
with the layer dimension last and transpose back to the caller's axis order. -/
def pillarCall (axis : Fin 3) (d0 d1 d2 : ℕ) (data : ℕ × ℕ × ℕ → ℚ)
    (table : List (List ℕ)) (metric : List ℚ → List ℕ → ℚ) :
    ℕ × ℕ × ℕ → ℕ :=
  transposeForAxis axis (pillarResult3 axis d0 d1 d2 data table metric)

/-- Index triple placing t at the constraint axis and (i, j) at the remaining
axes in order. -/
def tripleAt (axis : Fin 3) (i j t : ℕ) : ℕ × ℕ × ℕ :=
  match axis with
  | 0 => (t, i, j)
  | 1 => (i, t, j)
  | 2 => (i, j, t)

/-- Dimension of a rank-3 shape along the constraint axis. -/
def dimAt (axis : Fin 3) (d0 d1 d2 : ℕ) : ℕ :=
  match axis with
  | 0 => d0
  | 1 => d1
  | 2 => d2

/-! ### Straight-through estimator

fdtdx.core.jax.ste is not part of the provided sources; per the specification
it is a dual-function contract: the forward pass returns the discrete result
and the registered backward (vector-Jacobian) rule is the identity on the
upstream gradient, independent of the input values. -/

/-- Modelled from the spec: forward pass of straight_through_estimator, which
returns the discrete result. -/
def ste_forward {α β γ : Type*} (x : α → ℚ) (d : β → γ) : β → γ :=
  let _ := x
  d

/-- Modelled from the spec: the registered backward rule of
straight_through_estimator, the identity on the upstream gradient. -/
def ste_vjp {α : Type*} (x : α → ℚ) (g : α → ℚ) : α → ℚ :=
  let _ := x
  g

/-- ClosestIndex.__call__ as the dual pair produced by the gradient bridge:
the forward discrete output and the reported derivative map. -/
def closestIndexWithGrad {α : Type*} (mats : List Material) (arrv : α → ℚ) :
    (α → ℕ) × ((α → ℚ) → (α → ℚ)) :=
  (ste_forward arrv (closestIndex mats arrv), ste_vjp arrv)

/-- BrushConstraint2D.__call__ as the dual pair produced by the gradient
bridge, on the data function of a single input tensor. -/
def brushCallWithGrad (mod : Brush2DModule) (fuel : ℕ) (shape : List ℕ)
    (data : List ℕ → ℚ) :
    Except String (Option (ℕ × ℕ × ℕ → ℕ)) × ((List ℕ → ℚ) → (List ℕ → ℚ)) :=
  (brushCall mod fuel (.single shape data), ste_vjp data)

/-- PillarDiscretization.__call__ as the dual pair produced by the gradient
bridge. -/
def pillarCallWithGrad (axis : Fin 3) (d0 d1 d2 : ℕ) (data : ℕ × ℕ × ℕ → ℚ)
    (table : List (List ℕ)) (metric : List ℚ → List ℕ → ℚ) :
    ((ℕ × ℕ × ℕ → ℕ) × ((ℕ × ℕ × ℕ → ℚ) → (ℕ × ℕ × ℕ → ℚ))) :=
  (ste_forward data (pillarCall axis d0 d1 d2 data table metric), ste_vjp data)

/-! ### Containers (src/fdtdx/fdtd/container.py) -/

/-- RecordingState: data and state dictionaries of scalar entries. -/
structure RecordingState where
  data : List (String × ℚ)
  state : List (String × ℚ)

/-- A boundary object, reduced to what reset_array_container uses: its name and
its reset_state operation on its boundary state (modelled as a scalar blob). -/
structure BoundaryObj where
  name : String
  reset_state : ℚ → ℚ

/-- ObjectContainer, reduced to what reset_array_container uses: the list of
boundary objects. -/
structure ObjectContainer where
  boundary_objects : List BoundaryObj

/-- ArrayContainer: field arrays are functions from an index to a scalar, the
states are name-keyed association lists. -/
structure ArrayContainer where
  E : ℕ → ℚ
  H : ℕ → ℚ
  inv_permittivities : ℕ → ℚ
  inv_permeabilities : ℕ → ℚ
  boundary_states : List (String × ℚ)
  detector_states : List (String × List (String × ℚ))
  recording_state : Option RecordingState
  electric_conductivity : Option (ℕ → ℚ)
  magnetic_conductivity : Option (ℕ → ℚ)

/-- reset_array_container of src/fdtdx/fdtd/container.py, translated
statement by statement: E and H are multiplied by zero, the boundary states
are rebuilt through each boundary's reset_state, the detector states are
recomputed when requested but the following aset writes boundary_states a
second time instead (so the recomputed detector states are dropped), and the
recording state is zeroed when requested. -/
def reset_array_container (arrays : ArrayContainer) (objects : ObjectContainer)
    (reset_detector_states : Bool := false)
    (reset_recording_state : Bool := false) : ArrayContainer :=
  let arrays1 := { arrays with E := fun i => arrays.E i * 0 }
  let arrays2 := { arrays1 with H := fun i => arrays1.H i * 0 }
  let boundary_states := objects.boundary_objects.map fun b =>
    (b.name, b.reset_state ((arrays2.boundary_states.lookup b.name).getD 0))
  let arrays3 := { arrays2 with boundary_states := boundary_states }
  let detector_states :=
    if reset_detector_states then
      arrays3.detector_states.map fun kv =>
        (kv.1, kv.2.map fun kv2 => (kv2.1, kv2.2 * 0))
    else arrays3.detector_states
  let _ := detector_states
  let arrays4 := { arrays3 with boundary_states := boundary_states }
  let recording_state :=
    if reset_recording_state && arrays4.recording_state.isSome then
      arrays4.recording_state.map fun rs =>
        ⟨rs.data.map fun kv => (kv.1, kv.2 * 0),
         rs.state.map fun kv => (kv.1, kv.2 * 0)⟩
    else arrays4.recording_state
  let arrays5 := { arrays4 with recording_state := recording_state }
  arrays5

/-! ### Derived notions and concrete instances used in the statements -/

/-- Plane coordinates of an index triple after dropping the constraint axis:
the 2D position that an expanded rank-3 index reads from. -/
def planePos (axis : Fin 3) (t : ℕ × ℕ × ℕ) : Pos :=
  match axis with
  | 0 => ((t.2.1 : ℤ), (t.2.2 : ℤ))
  | 1 => ((t.1 : ℤ), (t.2.2 : ℤ))
  | 2 => ((t.1 : ℤ), (t.2.1 : ℤ))

/-- The raising condition of BrushConstraint2D.__call__ as implemented: a
multi-tensor input, more than two materials, a rank other than 3, or a
constraint-axis size other than 1. -/
def brushRaises (mod : Brush2DModule) (inp : ParamInput) : Prop :=
  match inp with
  | .multi _ => True
  | .single shape _ =>
      2 < mod.mats.length ∨ shape.length ≠ 3 ∨ shape.getD mod.axis 0 ≠ 1

/-- Divergence of the solver loop: for every fuel the embedded loop fails to
finish, i.e. the source while loop never terminates. -/
def loopDiverges (c : BrushCtx) : Prop :=
  ∀ fuel : ℕ, runLoop c fuel loopStart = none

/-- A 1-by-2 slice with values (1, -1) under the single-pixel center brush:
a concrete tie between the best solid value and the best void value. -/
def tieCtx : BrushCtx :=
  ⟨1, 2, {((0 : ℤ), (0 : ℤ))}, fun p => if p = (0, 1) then -1 else 1⟩

/-- A 1-by-1 slice under a brush whose footprint holds only the offset (1, 1),
so that no dilation ever reaches any grid pixel. -/
def cornerCtx : BrushCtx :=
  ⟨1, 1, {((1 : ℤ), (1 : ℤ))}, fun _ => 5⟩

/-- A 1-by-1 slice with value 5 under the single-pixel center brush. -/
def unitCtx : BrushCtx :=
  ⟨1, 1, {((0 : ℤ), (0 : ℤ))}, fun _ => 5⟩

/-- A two-material catalog whose air material comes first in canonical name
order (air at index 0). -/
def matsAirFirst : List Material :=
  [⟨"air", 1, true⟩, ⟨"mat", 2, false⟩]

/-- A two-material catalog whose air material comes second in canonical name
order (air at index 1). -/
def matsAirSecond : List Material :=
  [⟨"aaa", 2, false⟩, ⟨"air", 1, true⟩]

/-- A catalog holding only the air material. -/
def matsAirOnly : List Material := [⟨"air", 1, true⟩]

/-- A BrushConstraint2D module over the air-first catalog, center brush,
axis 0. -/
def modAirFirst : Brush2DModule :=
  ⟨{((0 : ℤ), (0 : ℤ))}, 0, matsAirFirst⟩

/-- A BrushConstraint2D module over the one-material catalog, center brush,
axis 0. -/
def modAirOnly : Brush2DModule :=
  ⟨{((0 : ℤ), (0 : ℤ))}, 0, matsAirOnly⟩

/-- A constant rank-3 input of shape (1, 1, 1). -/
def unitInput : ParamInput := .single [1, 1, 1] fun _ => 5

/-! ### Lemmas on the argmax fold -/

theorem bestFold_spec {ι β : Type*} [LinearOrder β] (g : ι → β) (l : List ι) :
    ∀ acc : ι × β,
      (bestFold g l acc = acc ∧ ∀ i ∈ l, g i ≤ acc.2) ∨
      (∃ l₁ l₂, l = l₁ ++ (bestFold g l acc).1 :: l₂ ∧
        g (bestFold g l acc).1 = (bestFold g l acc).2 ∧
        acc.2 < (bestFold g l acc).2 ∧
        (∀ i ∈ l₁, g i < (bestFold g l acc).2) ∧
        (∀ i ∈ l₂, g i ≤ (bestFold g l acc).2)) := by
  induction l with
  | nil => exact fun acc => Or.inl ⟨rfl, by simp⟩
  | cons a rest ih =>
    intro acc
    by_cases h : acc.2 < g a
    · have hfold : bestFold g (a :: rest) acc = bestFold g rest (a, g a) := by
        simp [bestFold, h]
      rw [hfold]
      rcases ih (a, g a) with ⟨heq, hle⟩ | ⟨l₁, l₂, hdec, hval, hlt, hl₁, hl₂⟩
      · refine Or.inr ⟨[], rest, ?_, ?_, ?_, by simp, ?_⟩
        · simp [heq]
        · simp [heq]
        · rw [heq]; exact h
        · intro i hi; rw [heq]; exact hle i hi
      · refine Or.inr ⟨a :: l₁, l₂, ?_, hval, ?_, ?_, hl₂⟩
        · rw [List.cons_append, ← hdec]
        · exact lt_trans h hlt
        · intro i hi
          rcases List.mem_cons.mp hi with rfl | hi'
          · exact hlt
          · exact hl₁ i hi'
    · have hfold : bestFold g (a :: rest) acc = bestFold g rest acc := by
        simp [bestFold, h]
      rw [hfold]
      rcases ih acc with ⟨heq, hle⟩ | ⟨l₁, l₂, hdec, hval, hlt, hl₁, hl₂⟩
      · refine Or.inl ⟨heq, ?_⟩
        intro i hi
        rcases List.mem_cons.mp hi with rfl | hi'
        · exact le_of_not_lt h
        · exact hle i hi'
      · refine Or.inr ⟨a :: l₁, l₂, ?_, hval, hlt, ?_, hl₂⟩
        · rw [List.cons_append, ← hdec]
        · intro i hi
          rcases List.mem_cons.mp hi with rfl | hi'
          · exact lt_of_le_of_lt (le_of_not_lt h) hlt
          · exact hl₁ i hi'

theorem bestFold_le {ι β : Type*} [LinearOrder β] (g : ι → β) (l : List ι)
    (acc : ι × β) : ∀ i ∈ l, g i ≤ (bestFold g l acc).2 := by
  intro i hi
  rcases bestFold_spec g l acc with ⟨heq, hle⟩ |
    ⟨l₁, l₂, hdec, hval, _, hl₁, hl₂⟩
  · rw [heq]; exact hle i hi
  · rw [hdec] at hi
    rcases List.mem_append.mp hi with hi' | hi'
    · exact le_of_lt (hl₁ i hi')
    · rcases List.mem_cons.mp hi' with rfl | hi''
      · exact le_of_eq hval
      · exact hl₂ i hi''

theorem bestFold_found {ι β : Type*} [LinearOrder β] (g : ι → β) (l : List ι)
    (acc : ι × β) (h : ∃ i ∈ l, acc.2 < g i) :
    (bestFold g l acc).1 ∈ l ∧
    g (bestFold g l acc).1 = (bestFold g l acc).2 ∧
    (∀ j ∈ l, (bestFold g l acc).2 ≤ g j →
      ∀ R : ι → ι → Prop, l.Pairwise R →
        R (bestFold g l acc).1 j ∨ (bestFold g l acc).1 = j) := by
  rcases bestFold_spec g l acc with ⟨_, hle⟩ |
    ⟨l₁, l₂, hdec, hval, _, hl₁, _⟩
  · obtain ⟨i, hi, hlt⟩ := h
    exact absurd (hle i hi) (not_le.mpr hlt)
  · refine ⟨?_, hval, ?_⟩
    · have hmem : (bestFold g l acc).1 ∈ l₁ ++ (bestFold g l acc).1 :: l₂ :=
        List.mem_append.mpr (Or.inr (List.mem_cons_self _ _))
      rw [← hdec] at hmem
      exact hmem
    · intro j hj hle R hR
      rw [hdec] at hj hR
      rcases List.mem_append.mp hj with hj' | hj'
      · exact absurd hle (not_le.mpr (hl₁ j hj'))
      · rcases List.mem_cons.mp hj' with heq | hj''
        · exact Or.inr heq.symm
        · have hpair : List.Pairwise R ((bestFold g l acc).1 :: l₂) :=
            hR.sublist (List.sublist_append_right l₁ _)
          exact Or.inl ((List.pairwise_cons.mp hpair).1 j hj'')

theorem bestFold_keeps {ι β : Type*} [LinearOrder β] (g : ι → β) (l : List ι)
    (acc : ι × β) (h : ∀ i ∈ l, g i ≤ acc.2) : bestFold g l acc = acc := by
  rcases bestFold_spec g l acc with ⟨heq, _⟩ |
    ⟨l₁, l₂, hdec, hval, hlt, _, _⟩
  · exact heq
  · have hmem : (bestFold g l acc).1 ∈ l₁ ++ (bestFold g l acc).1 :: l₂ :=
      List.mem_append.mpr (Or.inr (List.mem_cons_self _ _))
    rw [← hdec] at hmem
    exact absurd (hval ▸ h _ hmem) (not_le.mpr hlt)

/-! ### Lemmas on the grid and its row-major enumeration -/

theorem mem_grid {m n : ℕ} {p : Pos} :
    p ∈ grid m n ↔ 0 ≤ p.1 ∧ p.1 < (m : ℤ) ∧ 0 ≤ p.2 ∧ p.2 < (n : ℤ) := by
  simp [grid, Finset.mem_product, Finset.mem_Ico, and_assoc]

theorem flatIdx_entry {n : ℕ} (k : ℕ) :
    flatIdx n (((k / n : ℕ) : ℤ), ((k % n : ℕ) : ℤ)) = (k : ℤ) := by
  have h : k / n * n + k % n = k := Nat.div_add_mod' k n
  simp only [flatIdx]
  exact_mod_cast h

theorem mem_gridList {m n : ℕ} {p : Pos} :
    p ∈ gridList m n ↔ p ∈ grid m n := by
  constructor
  · intro hp
    simp only [gridList, List.mem_map] at hp
    obtain ⟨k, hk, rfl⟩ := hp
    have hk' : k < m * n := List.mem_range.mp hk
    have hn : 0 < n := by
      rcases Nat.eq_zero_or_pos n with rfl | hn
      · simp at hk'
      · exact hn
    rw [mem_grid]
    dsimp only
    refine ⟨Int.natCast_nonneg _, ?_, Int.natCast_nonneg _, ?_⟩
    · have : k / n < m := Nat.div_lt_of_lt_mul (by rwa [mul_comm] at hk')
      exact_mod_cast this
    · exact_mod_cast Nat.mod_lt k hn
  · intro hp
    rcases p with ⟨x, y⟩
    obtain ⟨h1, h2, h3, h4⟩ := mem_grid.mp hp
    dsimp only at h1 h2 h3 h4
    obtain ⟨a, rfl⟩ := Int.eq_ofNat_of_zero_le h1
    obtain ⟨b, rfl⟩ := Int.eq_ofNat_of_zero_le h3
    have ha : a < m := by exact_mod_cast h2
    have hb : b < n := by exact_mod_cast h4
    have hn : 0 < n := Nat.pos_of_ne_zero (by omega)
    have hk : a * n + b < m * n := by
      calc a * n + b < a * n + n := by omega
        _ = (a + 1) * n := by ring
        _ ≤ m * n := Nat.mul_le_mul_right n ha
    simp only [gridList, List.mem_map]
    refine ⟨a * n + b, List.mem_range.mpr hk, ?_⟩
    have hdiv : (a * n + b) / n = a := by
      rw [mul_comm, Nat.mul_add_div hn, Nat.div_eq_of_lt hb, Nat.add_zero]
    have hmod : (a * n + b) % n = b := by
      rw [mul_comm, Nat.mul_add_mod, Nat.mod_eq_of_lt hb]
    rw [hdiv, hmod]

theorem gridList_pairwise (m n : ℕ) :
    (gridList m n).Pairwise fun p q => flatIdx n p < flatIdx n q := by
  unfold gridList
  refine List.Pairwise.map _ ?_ (List.pairwise_lt_range (m * n))
  intro a b hab
  rw [flatIdx_entry, flatIdx_entry]
  exact_mod_cast hab

/-! ### Lemmas on dilation and the solver masks -/

theorem dilate_subset_grid (c : BrushCtx) (A : Finset Pos) :
    dilate c A ⊆ grid c.m c.n := Finset.filter_subset _ _

theorem dilate_mono (c : BrushCtx) {A A' : Finset Pos} (h : A ⊆ A') :
    dilate c A ⊆ dilate c A' := by
  intro p hp
  rw [dilate, Finset.mem_filter] at hp ⊢
  obtain ⟨hg, b, hb, hmem⟩ := hp
  exact ⟨hg, b, hb, h hmem⟩

theorem subset_dilate (c : BrushCtx) {A : Finset Pos}
    (hB : ((0 : ℤ), (0 : ℤ)) ∈ c.brush) (hA : A ⊆ grid c.m c.n) :
    A ⊆ dilate c A := by
  intro p hp
  rw [dilate, Finset.mem_filter]
  exact ⟨hA hp, ⟨(0, 0), hB, by simpa using hp⟩⟩

theorem touch_valid_solid_subset_grid (c : BrushCtx) (v s : Finset Pos) :
    touch_valid_solid c v s ⊆ grid c.m c.n := Finset.filter_subset _ _

theorem touch_valid_void_subset_grid (c : BrushCtx) (v s : Finset Pos) :
    touch_valid_void c v s ⊆ grid c.m c.n := Finset.filter_subset _ _

theorem touch_resolving_solid_subset (c : BrushCtx) (v s : Finset Pos) :
    touch_resolving_solid c v s ⊆ touch_valid_solid c v s :=
  Finset.inter_subset_right

theorem touch_resolving_void_subset (c : BrushCtx) (v s : Finset Pos) :
    touch_resolving_void c v s ⊆ touch_valid_void c v s :=
  Finset.inter_subset_right

theorem touch_free_solid_subset (c : BrushCtx) (v s : Finset Pos) :
    touch_free_solid c v s ⊆ touch_valid_solid c v s :=
  Finset.inter_subset_right

theorem touch_free_void_subset (c : BrushCtx) (v s : Finset Pos) :
    touch_free_void c v s ⊆ touch_valid_void c v s :=
  Finset.inter_subset_right

theorem valid_solid_not_mem_s {c : BrushCtx} {v s : Finset Pos} {p : Pos}
    (hp : p ∈ touch_valid_solid c v s) : p ∉ s :=
  (Finset.mem_filter.mp hp).2.2

theorem valid_void_not_mem_v {c : BrushCtx} {v s : Finset Pos} {p : Pos}
    (hp : p ∈ touch_valid_void c v s) : p ∉ v :=
  (Finset.mem_filter.mp hp).2.2

theorem valid_solid_not_mem_v {c : BrushCtx} {v s : Finset Pos} {p : Pos}
    (hB : ((0 : ℤ), (0 : ℤ)) ∈ c.brush) (hv : v ⊆ grid c.m c.n)
    (hp : p ∈ touch_valid_solid c v s) : p ∉ v := by
  have h1 : v ⊆ touch_impossible_solid c v := by
    refine subset_trans (subset_dilate c hB hv) ?_
    exact subset_dilate c hB (dilate_subset_grid c v)
  exact fun hpv => (Finset.mem_filter.mp hp).2.1 (h1 hpv)

theorem valid_void_not_mem_s {c : BrushCtx} {v s : Finset Pos} {p : Pos}
    (hB : ((0 : ℤ), (0 : ℤ)) ∈ c.brush) (hs : s ⊆ grid c.m c.n)
    (hp : p ∈ touch_valid_void c v s) : p ∉ s := by
  have h1 : s ⊆ touch_impossible_void c s := by
    refine subset_trans (subset_dilate c hB hs) ?_
    exact subset_dilate c hB (dilate_subset_grid c s)
  exact fun hps => (Finset.mem_filter.mp hp).2.1 (h1 hps)

theorem free_solid_not_mem_free_void {c : BrushCtx} {v s : Finset Pos} {p : Pos}
    (hB : ((0 : ℤ), (0 : ℤ)) ∈ c.brush) (hv : v ⊆ grid c.m c.n)
    (hp : p ∈ touch_free_solid c v s) : p ∉ touch_free_void c v s := by
  intro hp'
  have h1 : touch_valid_void c v s ⊆
      dilate c (pixel_possible_void c v s ∪ pixel_existing_void c v) := by
    have h2 : touch_valid_void c v s ⊆ pixel_possible_void c v s :=
      subset_trans (Finset.subset_union_right)
        (subset_dilate c hB (Finset.union_subset hv
          (touch_valid_void_subset_grid c v s)))
    refine subset_trans h2 ?_
    have h5 : pixel_possible_void c v s ⊆
        pixel_possible_void c v s ∪ pixel_existing_void c v :=
      Finset.subset_union_left
    refine subset_trans h5 ?_
    exact subset_dilate c hB (Finset.union_subset
      (dilate_subset_grid c _) (dilate_subset_grid c _))
  have h3 : p ∈ dilate c (pixel_possible_void c v s ∪ pixel_existing_void c v) :=
    h1 (touch_free_void_subset c v s hp')
  have h4 := (Finset.mem_filter.mp (Finset.mem_inter.mp hp).1).2
  exact h4 h3

/-! ### Lemmas on the masked maximum and argmax -/

theorem maskMax_empty (c : BrushCtx) (f : Pos → ℚ) :
    maskMax c (∅ : Finset Pos) f = ⊥ := by
  unfold maskMax
  rw [bestFold_keeps]
  intro i _
  simp [maskVal]

theorem argmax_spec (c : BrushCtx) (mask : Finset Pos) (f : Pos → ℚ)
    (hsub : mask ⊆ grid c.m c.n) (hne : mask.Nonempty) :
    argmaxPos c mask f ∈ mask ∧
    maskMax c mask f = ((f (argmaxPos c mask f) : ℚ) : WithBot ℚ) ∧
    (∀ r ∈ mask, f r ≤ f (argmaxPos c mask f)) ∧
    (∀ r ∈ mask, f (argmaxPos c mask f) ≤ f r →
      flatIdx c.n (argmaxPos c mask f) ≤ flatIdx c.n r) := by
  obtain ⟨p0, hp0⟩ := hne
  have hp0l : p0 ∈ gridList c.m c.n := mem_gridList.mpr (hsub hp0)
  have hex : ∃ i ∈ gridList c.m c.n,
      ((((0 : ℤ), (0 : ℤ)), (⊥ : WithBot ℚ))).2 < maskVal mask f i :=
    ⟨p0, hp0l, by simp [maskVal, hp0]⟩
  obtain ⟨hmem, hval, hfirst⟩ :=
    bestFold_found (maskVal mask f) (gridList c.m c.n) _ hex
  have hA : argmaxPos c mask f =
      (bestFold (maskVal mask f) (gridList c.m c.n)
        (((0 : ℤ), (0 : ℤ)), ⊥)).1 := rfl
  have hM : maskMax c mask f =
      (bestFold (maskVal mask f) (gridList c.m c.n)
        (((0 : ℤ), (0 : ℤ)), ⊥)).2 := rfl
  have hbot : (⊥ : WithBot ℚ) <
      (bestFold (maskVal mask f) (gridList c.m c.n)
        (((0 : ℤ), (0 : ℤ)), ⊥)).2 := by
    have h1 := bestFold_le (maskVal mask f) (gridList c.m c.n)
      (((0 : ℤ), (0 : ℤ)), ⊥) p0 hp0l
    have h2 : maskVal mask f p0 = ((f p0 : ℚ) : WithBot ℚ) := by
      simp [maskVal, hp0]
    rw [h2] at h1
    exact lt_of_lt_of_le (WithBot.bot_lt_coe _) h1
  have hin : argmaxPos c mask f ∈ mask := by
    rw [hA]
    by_contra hnot
    have h3 : maskVal mask f
        (bestFold (maskVal mask f) (gridList c.m c.n)
          (((0 : ℤ), (0 : ℤ)), ⊥)).1 = ⊥ := if_neg hnot
    rw [hval] at h3
    rw [h3] at hbot
    exact lt_irrefl _ hbot
  have hinb : (bestFold (maskVal mask f) (gridList c.m c.n)
      (((0 : ℤ), (0 : ℤ)), ⊥)).1 ∈ mask := hA ▸ hin
  have hvalc : maskMax c mask f =
      ((f (argmaxPos c mask f) : ℚ) : WithBot ℚ) := by
    rw [hM, ← hval, hA]
    exact if_pos hinb
  refine ⟨hin, hvalc, ?_, ?_⟩
  · intro r hr
    have h1 := bestFold_le (maskVal mask f) (gridList c.m c.n)
      (((0 : ℤ), (0 : ℤ)), ⊥) r (mem_gridList.mpr (hsub hr))
    have h2 : maskVal mask f r = ((f r : ℚ) : WithBot ℚ) := by
      simp [maskVal, hr]
    rw [h2, ← hM, hvalc] at h1
    exact_mod_cast h1
  · intro r hr hle
    have h2 : (bestFold (maskVal mask f) (gridList c.m c.n)
        (((0 : ℤ), (0 : ℤ)), ⊥)).2 ≤ maskVal mask f r := by
      have h3 : maskVal mask f r = ((f r : ℚ) : WithBot ℚ) := by
        simp [maskVal, hr]
      rw [← hM, hvalc, h3]
      exact_mod_cast hle
    have h4 := hfirst r (mem_gridList.mpr (hsub hr)) h2 _
      (gridList_pairwise c.m c.n)
    rw [← hA] at h4
    rcases h4 with hlt | heq
    · exact le_of_lt hlt
    · rw [heq]

theorem maskMax_pos (c : BrushCtx) (mask : Finset Pos) (f : Pos → ℚ)
    (hsub : mask ⊆ grid c.m c.n) (hne : mask.Nonempty) :
    (⊥ : WithBot ℚ) < maskMax c mask f := by
  rw [(argmax_spec c mask f hsub hne).2.1]
  exact WithBot.bot_lt_coe _

theorem selectBest_spec (c : BrushCtx) (sm vm v s : Finset Pos)
    (hsm : sm ⊆ grid c.m c.n) (hvm : vm ⊆ grid c.m c.n)
    (hne : (sm ∪ vm).Nonempty) :
    (maskMax c vm (fun p => -c.arr p) < maskMax c sm c.arr ∧ sm.Nonempty ∧
      ∃ q ∈ sm, selectBestTouch c sm vm v s = (v, insert q s) ∧
        (∀ r ∈ sm, c.arr r ≤ c.arr q) ∧
        (∀ r ∈ sm, c.arr q ≤ c.arr r → flatIdx c.n q ≤ flatIdx c.n r)) ∨
    (maskMax c sm c.arr ≤ maskMax c vm (fun p => -c.arr p) ∧ vm.Nonempty ∧
      ∃ q ∈ vm, selectBestTouch c sm vm v s = (insert q v, s) ∧
        (∀ r ∈ vm, -c.arr r ≤ -c.arr q) ∧
        (∀ r ∈ vm, -c.arr q ≤ -c.arr r → flatIdx c.n q ≤ flatIdx c.n r)) := by
  by_cases h : maskMax c vm (fun p => -c.arr p) < maskMax c sm c.arr
  · left
    have hsm_ne : sm.Nonempty := by
      rcases Finset.eq_empty_or_nonempty sm with rfl | hne'
      · rw [maskMax_empty] at h
        exact absurd h (not_lt_bot)
      · exact hne'
    obtain ⟨hq, _, hmax, hfirst⟩ := argmax_spec c sm c.arr hsm hsm_ne
    refine ⟨h, hsm_ne, argmaxPos c sm c.arr, hq, ?_, hmax, hfirst⟩
    simp only [selectBestTouch, if_pos h]
  · right
    have hle : maskMax c sm c.arr ≤ maskMax c vm (fun p => -c.arr p) :=
      le_of_not_lt h
    have hvm_ne : vm.Nonempty := by
      rcases Finset.eq_empty_or_nonempty vm with rfl | hne'
      · rw [maskMax_empty] at hle
        have hsm_ne : sm.Nonempty := by
          rcases Finset.eq_empty_or_nonempty sm with rfl | hne''
          · simp at hne
          · exact hne''
        exact absurd (maskMax_pos c sm c.arr hsm hsm_ne)
          (not_lt_of_le hle)
      · exact hne'
    obtain ⟨hq, _, hmax, hfirst⟩ :=
      argmax_spec c vm (fun p => -c.arr p) hvm hvm_ne
    refine ⟨hle, hvm_ne, argmaxPos c vm (fun p => -c.arr p), hq, ?_, hmax,
      hfirst⟩
    simp only [selectBestTouch, if_neg h]

/-! ### Lemmas on the loop body -/

theorem bodyFn_eq_case1 (c : BrushCtx) (v s : Finset Pos)
    (h : (touch_free_solid c v s ∪ touch_free_void c v s).Nonempty) :
    bodyFn c (v, s) =
      (v ∪ touch_free_void c v s, s ∪ touch_free_solid c v s) := by
  simp only [bodyFn, if_pos h]

theorem bodyFn_eq_case2 (c : BrushCtx) (v s : Finset Pos)
    (h1 : ¬ (touch_free_solid c v s ∪ touch_free_void c v s).Nonempty)
    (h2 : (touch_resolving_solid c v s ∪ touch_resolving_void c v s).Nonempty) :
    bodyFn c (v, s) = selectBestTouch c (touch_resolving_solid c v s)
      (touch_resolving_void c v s) v s := by
  simp only [bodyFn, if_neg h1, if_pos h2]

theorem bodyFn_eq_case3 (c : BrushCtx) (v s : Finset Pos)
    (h1 : ¬ (touch_free_solid c v s ∪ touch_free_void c v s).Nonempty)
    (h2 : ¬ (touch_resolving_solid c v s ∪
      touch_resolving_void c v s).Nonempty) :
    bodyFn c (v, s) = selectBestTouch c (touch_valid_solid c v s)
      (touch_valid_void c v s) v s := by
  simp only [bodyFn, if_neg h1, if_neg h2]

theorem selectBest_shape (c : BrushCtx) (sm vm v s : Finset Pos) :
    ∃ q, selectBestTouch c sm vm v s = (v, insert q s) ∨
         selectBestTouch c sm vm v s = (insert q v, s) := by
  by_cases h : maskMax c vm (fun p => -c.arr p) < maskMax c sm c.arr
  · exact ⟨argmaxPos c sm c.arr,
      Or.inl (by simp only [selectBestTouch, if_pos h])⟩
  · exact ⟨argmaxPos c vm (fun p => -c.arr p),
      Or.inr (by simp only [selectBestTouch, if_neg h])⟩

theorem bodyFn_mono (c : BrushCtx) (v s : Finset Pos) :
    v ⊆ (bodyFn c (v, s)).1 ∧ s ⊆ (bodyFn c (v, s)).2 := by
  by_cases h1 : (touch_free_solid c v s ∪ touch_free_void c v s).Nonempty
  · rw [bodyFn_eq_case1 c v s h1]
    exact ⟨Finset.subset_union_left, Finset.subset_union_left⟩
  · have hsel : ∀ sm vm : Finset Pos,
        v ⊆ (selectBestTouch c sm vm v s).1 ∧
        s ⊆ (selectBestTouch c sm vm v s).2 := by
      intro sm vm
      obtain ⟨q, hq | hq⟩ := selectBest_shape c sm vm v s
      · rw [hq]; exact ⟨subset_rfl, Finset.subset_insert _ _⟩
      · rw [hq]; exact ⟨Finset.subset_insert _ _, subset_rfl⟩
    by_cases h2 : (touch_resolving_solid c v s ∪
        touch_resolving_void c v s).Nonempty
    · rw [bodyFn_eq_case2 c v s h1 h2]; exact hsel _ _
    · rw [bodyFn_eq_case3 c v s h1 h2]; exact hsel _ _

theorem bodyFn_disjoint (c : BrushCtx) (v s : Finset Pos)
    (hB : ((0 : ℤ), (0 : ℤ)) ∈ c.brush)
    (hv : v ⊆ grid c.m c.n) (hs : s ⊆ grid c.m c.n)
    (hdisj : Disjoint v s)
    (hvalid : (touch_valid_solid c v s ∪ touch_valid_void c v s).Nonempty) :
    Disjoint (bodyFn c (v, s)).1 (bodyFn c (v, s)).2 := by
  have hsel : ∀ sm vm : Finset Pos, sm ⊆ touch_valid_solid c v s →
      vm ⊆ touch_valid_void c v s → (sm ∪ vm).Nonempty →
      Disjoint (selectBestTouch c sm vm v s).1
        (selectBestTouch c sm vm v s).2 := by
    intro sm vm hsmv hvmv hne
    have hsm : sm ⊆ grid c.m c.n :=
      subset_trans hsmv (touch_valid_solid_subset_grid c v s)
    have hvm : vm ⊆ grid c.m c.n :=
      subset_trans hvmv (touch_valid_void_subset_grid c v s)
    rcases selectBest_spec c sm vm v s hsm hvm hne with
      ⟨_, _, q, hq, heq, _, _⟩ | ⟨_, _, q, hq, heq, _, _⟩
    · rw [heq]
      exact Finset.disjoint_insert_right.mpr
        ⟨valid_solid_not_mem_v hB hv (hsmv hq), hdisj⟩
    · rw [heq]
      exact Finset.disjoint_insert_left.mpr
        ⟨valid_void_not_mem_s hB hs (hvmv hq), hdisj⟩
  by_cases h1 : (touch_free_solid c v s ∪ touch_free_void c v s).Nonempty
  · rw [bodyFn_eq_case1 c v s h1]
    rw [Finset.disjoint_left]
    intro x hx hx'
    rcases Finset.mem_union.mp hx with hxv | hxfv
    · rcases Finset.mem_union.mp hx' with hxs | hxfs
      · exact Finset.disjoint_left.mp hdisj hxv hxs
      · exact valid_solid_not_mem_v hB hv
          (touch_free_solid_subset c v s hxfs) hxv
    · rcases Finset.mem_union.mp hx' with hxs | hxfs
      · exact valid_void_not_mem_s hB hs
          (touch_free_void_subset c v s hxfv) hxs
      · exact free_solid_not_mem_free_void hB hv hxfs hxfv
  · by_cases h2 : (touch_resolving_solid c v s ∪
        touch_resolving_void c v s).Nonempty
    · rw [bodyFn_eq_case2 c v s h1 h2]
      exact hsel _ _ (touch_resolving_solid_subset c v s)
        (touch_resolving_void_subset c v s) h2
    · rw [bodyFn_eq_case3 c v s h1 h2]
      exact hsel _ _ subset_rfl subset_rfl hvalid

theorem bodyFn_subset_grid (c : BrushCtx) (v s : Finset Pos)
    (hv : v ⊆ grid c.m c.n) (hs : s ⊆ grid c.m c.n)
    (hvalid : (touch_valid_solid c v s ∪ touch_valid_void c v s).Nonempty) :
    (bodyFn c (v, s)).1 ⊆ grid c.m c.n ∧
    (bodyFn c (v, s)).2 ⊆ grid c.m c.n := by
  have hsel : ∀ sm vm : Finset Pos, sm ⊆ grid c.m c.n → vm ⊆ grid c.m c.n →
      (sm ∪ vm).Nonempty →
      (selectBestTouch c sm vm v s).1 ⊆ grid c.m c.n ∧
      (selectBestTouch c sm vm v s).2 ⊆ grid c.m c.n := by
    intro sm vm hsm hvm hne
    rcases selectBest_spec c sm vm v s hsm hvm hne with
      ⟨_, _, q, hq, heq, _, _⟩ | ⟨_, _, q, hq, heq, _, _⟩
    · rw [heq]
      exact ⟨hv, Finset.insert_subset (hsm hq) hs⟩
    · rw [heq]
      exact ⟨Finset.insert_subset (hvm hq) hv, hs⟩
  by_cases h1 : (touch_free_solid c v s ∪ touch_free_void c v s).Nonempty
  · rw [bodyFn_eq_case1 c v s h1]
    constructor
    · exact Finset.union_subset hv (subset_trans (touch_free_void_subset c v s)
        (touch_valid_void_subset_grid c v s))
    · exact Finset.union_subset hs (subset_trans (touch_free_solid_subset c v s)
        (touch_valid_solid_subset_grid c v s))
  · by_cases h2 : (touch_resolving_solid c v s ∪
        touch_resolving_void c v s).Nonempty
    · rw [bodyFn_eq_case2 c v s h1 h2]
      exact hsel _ _ (subset_trans (touch_resolving_solid_subset c v s)
          (touch_valid_solid_subset_grid c v s))
        (subset_trans (touch_resolving_void_subset c v s)
          (touch_valid_void_subset_grid c v s)) h2
    · rw [bodyFn_eq_case3 c v s h1 h2]
      exact hsel _ _ (touch_valid_solid_subset_grid c v s)
        (touch_valid_void_subset_grid c v s) hvalid

theorem bodyFn_grows (c : BrushCtx) (v s : Finset Pos)
    (hvalid : (touch_valid_solid c v s ∪ touch_valid_void c v s).Nonempty) :
    v.card + s.card < (bodyFn c (v, s)).1.card + (bodyFn c (v, s)).2.card := by
  have hsel : ∀ sm vm : Finset Pos, sm ⊆ touch_valid_solid c v s →
      vm ⊆ touch_valid_void c v s → (sm ∪ vm).Nonempty →
      v.card + s.card < (selectBestTouch c sm vm v s).1.card +
        (selectBestTouch c sm vm v s).2.card := by
    intro sm vm hsmv hvmv hne
    have hsm : sm ⊆ grid c.m c.n :=
      subset_trans hsmv (touch_valid_solid_subset_grid c v s)
    have hvm : vm ⊆ grid c.m c.n :=
      subset_trans hvmv (touch_valid_void_subset_grid c v s)
    rcases selectBest_spec c sm vm v s hsm hvm hne with
      ⟨_, _, q, hq, heq, _, _⟩ | ⟨_, _, q, hq, heq, _, _⟩
    · rw [heq]
      have hq' : q ∉ s := valid_solid_not_mem_s (hsmv hq)
      simp only [Finset.card_insert_of_not_mem hq']
      omega
    · rw [heq]
      have hq' : q ∉ v := valid_void_not_mem_v (hvmv hq)
      simp only [Finset.card_insert_of_not_mem hq']
      omega
  by_cases h1 : (touch_free_solid c v s ∪ touch_free_void c v s).Nonempty
  · rw [bodyFn_eq_case1 c v s h1]
    have hdv : Disjoint v (touch_free_void c v s) := by
      rw [Finset.disjoint_right]
      exact fun p hp => valid_void_not_mem_v (touch_free_void_subset c v s hp)
    have hds : Disjoint s (touch_free_solid c v s) := by
      rw [Finset.disjoint_right]
      exact fun p hp => valid_solid_not_mem_s (touch_free_solid_subset c v s hp)
    rw [Finset.card_union_of_disjoint hdv, Finset.card_union_of_disjoint hds]
    have hpos : 0 < (touch_free_void c v s).card +
        (touch_free_solid c v s).card := by
      obtain ⟨x, hx⟩ := h1
      rcases Finset.mem_union.mp hx with h | h
      · have := Finset.card_pos.mpr ⟨x, h⟩
        omega
      · have := Finset.card_pos.mpr ⟨x, h⟩
        omega
    omega
  · by_cases h2 : (touch_resolving_solid c v s ∪
        touch_resolving_void c v s).Nonempty
    · rw [bodyFn_eq_case2 c v s h1 h2]
      exact hsel _ _ (touch_resolving_solid_subset c v s)
        (touch_resolving_void_subset c v s) h2
    · rw [bodyFn_eq_case3 c v s h1 h2]
      exact hsel _ _ subset_rfl subset_rfl hvalid

/-! ### Lemmas on the loop -/

theorem runLoop_covered (c : BrushCtx) :
    ∀ (fuel : ℕ) (st fin : Finset Pos × Finset Pos),
      runLoop c fuel st = some fin → loopCond c fin = false := by
  intro fuel
  induction fuel with
  | zero =>
    intro st fin h
    rw [runLoop] at h
    cases hcond : loopCond c st
    · rw [hcond] at h
      simp only [Bool.false_eq_true, if_false] at h
      obtain rfl := Option.some.inj h
      exact hcond
    · rw [hcond] at h
      simp at h
  | succ n ih =>
    intro st fin h
    rw [runLoop] at h
    cases hcond : loopCond c st
    · rw [hcond] at h
      simp only [Bool.false_eq_true, if_false] at h
      obtain rfl := Option.some.inj h
      exact hcond
    · rw [hcond] at h
      simp only [if_true] at h
      exact ih _ _ h

theorem runLoop_stops (c : BrushCtx) (fuel : ℕ)
    (st : Finset Pos × Finset Pos) (h : loopCond c st = false) :
    runLoop c fuel st = some st := by
  cases fuel
  · rw [runLoop, h]
    simp
  · rw [runLoop, h]
    simp

theorem runLoop_term (c : BrushCtx)
    (hB : ((0 : ℤ), (0 : ℤ)) ∈ c.brush)
    (hinv : ∀ v ∈ (grid c.m c.n).powerset, ∀ s ∈ (grid c.m c.n).powerset,
      Disjoint v s → loopCond c (v, s) = true →
      (touch_valid_solid c v s ∪ touch_valid_void c v s).Nonempty) :
    ∀ (fuel : ℕ) (v s : Finset Pos), v ⊆ grid c.m c.n → s ⊆ grid c.m c.n →
      Disjoint v s →
      2 * (grid c.m c.n).card + 1 ≤ fuel + (v.card + s.card) →
      (runLoop c fuel (v, s)).isSome := by
  intro fuel
  induction fuel with
  | zero =>
    intro v s hv hs hdisj hfuel
    exfalso
    have h1 : v.card ≤ (grid c.m c.n).card := Finset.card_le_card hv
    have h2 : s.card ≤ (grid c.m c.n).card := Finset.card_le_card hs
    omega
  | succ n ih =>
    intro v s hv hs hdisj hfuel
    cases hcond : loopCond c (v, s)
    · rw [runLoop, hcond]
      simp
    · have hvalid := hinv v (Finset.mem_powerset.mpr hv) s
        (Finset.mem_powerset.mpr hs) hdisj hcond
      rw [runLoop, hcond]
      simp only [if_true]
      have hgrow := bodyFn_grows c v s hvalid
      have hsub := bodyFn_subset_grid c v s hv hs hvalid
      have hdisj' := bodyFn_disjoint c v s hB hv hs hdisj hvalid
      have := ih (bodyFn c (v, s)).1 (bodyFn c (v, s)).2 hsub.1 hsub.2 hdisj'
        (by omega)
      exact this

/-! ### Lemmas on argmin, the catalog and the call wrappers -/

theorem argminIdx_spec (g : ℕ → ℚ) (len : ℕ) (h : 0 < len) :
    argminIdx g len < len ∧
    (∀ j < len, g (argminIdx g len) ≤ g j) ∧
    (∀ j < len, g j ≤ g (argminIdx g len) → argminIdx g len ≤ j) := by
  have h0 : (0 : ℕ) ∈ List.range len := List.mem_range.mpr h
  have hex : ∃ i ∈ List.range len,
      (((0 : ℕ), (⊥ : WithBot ℚ))).2 < ((-g i : ℚ) : WithBot ℚ) :=
    ⟨0, h0, WithBot.bot_lt_coe _⟩
  obtain ⟨hmem, hval, hfirst⟩ := bestFold_found
    (fun i => ((-g i : ℚ) : WithBot ℚ)) (List.range len) (0, ⊥) hex
  have hA : argminIdx g len =
      (bestFold (fun i => ((-g i : ℚ) : WithBot ℚ)) (List.range len)
        (0, ⊥)).1 := rfl
  have hval' : ((-g ((bestFold (fun i => ((-g i : ℚ) : WithBot ℚ))
      (List.range len) (0, ⊥)).1) : ℚ) : WithBot ℚ) =
      (bestFold (fun i => ((-g i : ℚ) : WithBot ℚ)) (List.range len)
        (0, ⊥)).2 := hval
  refine ⟨?_, ?_, ?_⟩
  · rw [hA]
    exact List.mem_range.mp hmem
  · intro j hj
    have hle : ((-g j : ℚ) : WithBot ℚ) ≤
        (bestFold (fun i => ((-g i : ℚ) : WithBot ℚ)) (List.range len)
          (0, ⊥)).2 :=
      bestFold_le (fun i => ((-g i : ℚ) : WithBot ℚ))
        (List.range len) (0, ⊥) j (List.mem_range.mpr hj)
    rw [← hval'] at hle
    rw [hA]
    have h2 : (-g j : ℚ) ≤ -g ((bestFold (fun i => ((-g i : ℚ) : WithBot ℚ))
        (List.range len) (0, ⊥)).1) := by exact_mod_cast hle
    linarith
  · intro j hj hle
    have h2 : (bestFold (fun i => ((-g i : ℚ) : WithBot ℚ)) (List.range len)
        (0, ⊥)).2 ≤ ((-g j : ℚ) : WithBot ℚ) := by
      rw [← hval']
      rw [hA] at hle
      exact_mod_cast (by linarith :
        -g ((bestFold (fun i => ((-g i : ℚ) : WithBot ℚ)) (List.range len)
          (0, ⊥)).1) ≤ -g j)
    have h4 := hfirst j (List.mem_range.mpr hj) h2 _
      (List.pairwise_lt_range len)
    rw [← hA] at h4
    rcases h4 with hlt | heq
    · exact le_of_lt hlt
    · rw [heq]

theorem map_range_getD (l : List ℕ) :
    (List.range l.length).map (fun t => l.getD t 0) = l := by
  apply List.ext_getElem
  · simp
  · intro k h1 h2
    simp only [List.getElem_map, List.getElem_range]
    exact List.getD_eq_getElem l 0 h2

theorem get_air_name_ok (mats : List Material)
    (hair : ∃ mt ∈ mats, mt.is_air = true) :
    ∃ nm, get_air_name mats = .ok nm := by
  obtain ⟨mt, hmt, hmta⟩ := hair
  have hname : mt.name ∈ compute_ordered_names mats := by
    unfold compute_ordered_names
    rw [List.mem_insertionSort]
    exact List.mem_map_of_mem _ hmt
  have hpred : (mats.any fun mt' => mt'.name = mt.name && mt'.is_air) = true := by
    rw [List.any_eq_true]
    refine ⟨mt, hmt, ?_⟩
    simp [hmta]
  rcases hfind : (compute_ordered_names mats).find?
      (fun nm => mats.any fun mt' => mt'.name = nm && mt'.is_air) with _ | nm
  · exfalso
    exact absurd hpred (by simpa using List.find?_eq_none.mp hfind mt.name hname)
  · exact ⟨nm, by rw [get_air_name, hfind]⟩

theorem expandDims_planePos (axis : Fin 3) (cur : Pos → ℕ) (t : ℕ × ℕ × ℕ) :
    expandDims axis cur t = cur (planePos axis t) := by
  fin_cases axis <;> rfl

/-! ### Claim C1 -/

/-- C1, counterexample: in the solver's case 3 on a 1-by-2 slice with values
(1, -1) under the center brush, the maximum arr value among the solid
candidates equals the maximum -arr value among the void candidates (both 1),
no free or resolving touch exists, yet the committed side is the void side:
the tie is not broken toward solid, because the source comparison
max(values_solid) > max(values_void) sends ties to the void branch. -/
theorem c1_tie_commits_void :
    maskMax tieCtx (touch_valid_solid tieCtx ∅ ∅) tieCtx.arr =
      maskMax tieCtx (touch_valid_void tieCtx ∅ ∅) (fun p => -tieCtx.arr p) ∧
    touch_free_solid tieCtx ∅ ∅ ∪ touch_free_void tieCtx ∅ ∅ = ∅ ∧
    touch_resolving_solid tieCtx ∅ ∅ ∪ touch_resolving_void tieCtx ∅ ∅ = ∅ ∧
    bodyFn tieCtx loopStart = ({((0 : ℤ), (1 : ℤ))}, (∅ : Finset Pos)) :=
  ⟨by decide, by decide, by decide, by decide⟩

/-- C1 (amended): in the best-touch selection shared by the solver's cases 2
and 3, the solid side is committed if and only if the maximum arr value among
the solid candidates is strictly greater than the maximum -arr value among
the void candidates — ties are broken toward void, not solid — and exactly
the row-major argmax position of the winning side is newly set on that
side. -/
theorem c1_select_best_touch (c : BrushCtx) (sm vm v s : Finset Pos)
    (hsm : sm ⊆ grid c.m c.n) (hvm : vm ⊆ grid c.m c.n)
    (hss : ∀ p ∈ sm, p ∉ s) (hvv : ∀ p ∈ vm, p ∉ v)
    (hne : (sm ∪ vm).Nonempty) :
    (maskMax c vm (fun p => -c.arr p) < maskMax c sm c.arr ∧ sm.Nonempty ∧
      ∃ q ∈ sm, q ∉ s ∧ selectBestTouch c sm vm v s = (v, insert q s) ∧
        (∀ r ∈ sm, c.arr r ≤ c.arr q) ∧
        (∀ r ∈ sm, c.arr q ≤ c.arr r → flatIdx c.n q ≤ flatIdx c.n r)) ∨
    (maskMax c sm c.arr ≤ maskMax c vm (fun p => -c.arr p) ∧ vm.Nonempty ∧
      ∃ q ∈ vm, q ∉ v ∧ selectBestTouch c sm vm v s = (insert q v, s) ∧
        (∀ r ∈ vm, -c.arr r ≤ -c.arr q) ∧
        (∀ r ∈ vm, -c.arr q ≤ -c.arr r → flatIdx c.n q ≤ flatIdx c.n r)) := by
  rcases selectBest_spec c sm vm v s hsm hvm hne with
    ⟨h1, h2, q, hq, heq, h3, h4⟩ | ⟨h1, h2, q, hq, heq, h3, h4⟩
  · exact Or.inl ⟨h1, h2, q, hq, hss q hq, heq, h3, h4⟩
  · exact Or.inr ⟨h1, h2, q, hq, hvv q hq, heq, h3, h4⟩

/-- Witness for C1 at a concrete instance: with a singleton solid candidate
set and no void candidate on the 1-by-1 slice, the selection commits exactly
that solid position. -/
theorem c1_select_best_touch_witness :
    selectBestTouch unitCtx {((0 : ℤ), (0 : ℤ))} ∅ ∅ ∅ =
      ((∅ : Finset Pos), ({((0 : ℤ), (0 : ℤ))} : Finset Pos)) := by
  rcases c1_select_best_touch unitCtx {((0 : ℤ), (0 : ℤ))} ∅ ∅ ∅
      (by decide) (by decide) (by decide) (by decide) (by decide) with
    ⟨_, _, q, hq, _, heq, _, _⟩ | ⟨_, _, q, hq, _, _, _, _⟩
  · have hq' : q = ((0 : ℤ), (0 : ℤ)) := by simpa using hq
    rw [hq'] at heq
    simpa using heq
  · simp at hq

/-! ### Claim C3 -/

/-- C3: each iteration of the solver evaluates its three cases in strict
priority order: if any free solid or free void touch exists, all free solid
and all free void candidates are committed simultaneously; otherwise, if any
resolving touch exists, exactly one best resolving candidate is committed on
one side; otherwise exactly one best candidate among the remaining valid
touches is committed. -/
theorem c3_case_priority (c : BrushCtx) (v s : Finset Pos) :
    ((touch_free_solid c v s ∪ touch_free_void c v s).Nonempty →
      bodyFn c (v, s) =
        (v ∪ touch_free_void c v s, s ∪ touch_free_solid c v s)) ∧
    (touch_free_solid c v s ∪ touch_free_void c v s = ∅ →
      (touch_resolving_solid c v s ∪ touch_resolving_void c v s).Nonempty →
      ∃ q, (q ∈ touch_resolving_solid c v s ∧ q ∉ s ∧
             bodyFn c (v, s) = (v, insert q s)) ∨
           (q ∈ touch_resolving_void c v s ∧ q ∉ v ∧
             bodyFn c (v, s) = (insert q v, s))) ∧
    (touch_free_solid c v s ∪ touch_free_void c v s = ∅ →
      touch_resolving_solid c v s ∪ touch_resolving_void c v s = ∅ →
      (touch_valid_solid c v s ∪ touch_valid_void c v s).Nonempty →
      ∃ q, (q ∈ touch_valid_solid c v s ∧ q ∉ s ∧
             bodyFn c (v, s) = (v, insert q s)) ∨
           (q ∈ touch_valid_void c v s ∧ q ∉ v ∧
             bodyFn c (v, s) = (insert q v, s))) := by
  refine ⟨fun h => bodyFn_eq_case1 c v s h, ?_, ?_⟩
  · intro h1 h2
    have h1' : ¬ (touch_free_solid c v s ∪ touch_free_void c v s).Nonempty := by
      rw [h1]
      exact Finset.not_nonempty_empty
    rw [bodyFn_eq_case2 c v s h1' h2]
    rcases selectBest_spec c _ _ v s
        (subset_trans (touch_resolving_solid_subset c v s)
          (touch_valid_solid_subset_grid c v s))
        (subset_trans (touch_resolving_void_subset c v s)
          (touch_valid_void_subset_grid c v s)) h2 with
      ⟨_, _, q, hq, heq, _, _⟩ | ⟨_, _, q, hq, heq, _, _⟩
    · exact ⟨q, Or.inl ⟨hq, valid_solid_not_mem_s
        (touch_resolving_solid_subset c v s hq), heq⟩⟩
    · exact ⟨q, Or.inr ⟨hq, valid_void_not_mem_v
        (touch_resolving_void_subset c v s hq), heq⟩⟩
  · intro h1 h2 h3
    have h1' : ¬ (touch_free_solid c v s ∪ touch_free_void c v s).Nonempty := by
      rw [h1]
      exact Finset.not_nonempty_empty
    have h2' : ¬ (touch_resolving_solid c v s ∪
        touch_resolving_void c v s).Nonempty := by
      rw [h2]
      exact Finset.not_nonempty_empty
    rw [bodyFn_eq_case3 c v s h1' h2']
    rcases selectBest_spec c _ _ v s (touch_valid_solid_subset_grid c v s)
        (touch_valid_void_subset_grid c v s) h3 with
      ⟨_, _, q, hq, heq, _, _⟩ | ⟨_, _, q, hq, heq, _, _⟩
    · exact ⟨q, Or.inl ⟨hq, valid_solid_not_mem_s hq, heq⟩⟩
    · exact ⟨q, Or.inr ⟨hq, valid_void_not_mem_v hq, heq⟩⟩

/-- Witness for C3 at a concrete instance: on the tie slice from the empty
state no free and no resolving touch exists, and case 3 commits exactly one
valid candidate. -/
theorem c3_case_priority_witness :
    ∃ q, (q ∈ touch_valid_solid tieCtx ∅ ∅ ∧ q ∉ (∅ : Finset Pos) ∧
           bodyFn tieCtx (∅, ∅) = (∅, insert q ∅)) ∨
         (q ∈ touch_valid_void tieCtx ∅ ∅ ∧ q ∉ (∅ : Finset Pos) ∧
           bodyFn tieCtx (∅, ∅) = (insert q ∅, ∅)) :=
  (c3_case_priority tieCtx ∅ ∅).2.2 (by decide) (by decide) (by decide)

/-! ### Claim C4 -/

/-- C4, counterexample: under the non-empty brush holding only the offset
(1, 1) on a 1-by-1 slice, the loop condition holds at the all-false start
state, and the very first iteration commits the single pixel to both fields:
the committed-solid and committed-void fields do not stay disjoint. -/
theorem c4_corner_brush_breaks_disjointness :
    loopCond cornerCtx loopStart = true ∧
    ¬ Disjoint (bodyFn cornerCtx loopStart).1 (bodyFn cornerCtx loopStart).2 :=
  ⟨by decide, by decide⟩

/-- C4 (amended): the solver loop starts from all-false committed fields and
every iteration only grows them pointwise; provided the brush contains its
center offset and a valid candidate exists at the current disjoint sub-grid
state, the two committed fields stay disjoint after the iteration; and the
loop stops exactly when the dilations of the two fields jointly cover the
grid: any state the loop returns fails the continuation condition, and a
state that is already covered is returned unchanged. -/
theorem c4_loop_invariants (c : BrushCtx) (v s : Finset Pos) (fuel : ℕ)
    (st fin : Finset Pos × Finset Pos)
    (hB : ((0 : ℤ), (0 : ℤ)) ∈ c.brush)
    (hv : v ⊆ grid c.m c.n) (hs : s ⊆ grid c.m c.n)
    (hdisj : Disjoint v s)
    (hvalid : (touch_valid_solid c v s ∪ touch_valid_void c v s).Nonempty)
    (hrun : runLoop c fuel st = some fin) :
    loopStart = ((∅ : Finset Pos), (∅ : Finset Pos)) ∧
    (∀ v' s' : Finset Pos,
      v' ⊆ (bodyFn c (v', s')).1 ∧ s' ⊆ (bodyFn c (v', s')).2) ∧
    Disjoint (bodyFn c (v, s)).1 (bodyFn c (v, s)).2 ∧
    loopCond c fin = false ∧
    (loopCond c st = false → fin = st) := by
  refine ⟨rfl, fun v' s' => bodyFn_mono c v' s',
    bodyFn_disjoint c v s hB hv hs hdisj hvalid,
    runLoop_covered c fuel st fin hrun, ?_⟩
  intro hc
  have h1 := runLoop_stops c fuel st hc
  rw [h1] at hrun
  exact (Option.some.inj hrun).symm

/-- Witness for C4 at a concrete instance: the 1-by-1 slice under the center
brush, iterated from the empty state with fuel 2. -/
theorem c4_loop_invariants_witness :
    loopStart = ((∅ : Finset Pos), (∅ : Finset Pos)) ∧
    (∀ v' s' : Finset Pos,
      v' ⊆ (bodyFn unitCtx (v', s')).1 ∧ s' ⊆ (bodyFn unitCtx (v', s')).2) ∧
    Disjoint (bodyFn unitCtx (∅, ∅)).1 (bodyFn unitCtx (∅, ∅)).2 ∧
    loopCond unitCtx ((∅ : Finset Pos), ({((0 : ℤ), (0 : ℤ))} : Finset Pos)) =
      false ∧
    (loopCond unitCtx loopStart = false →
      ((∅ : Finset Pos), ({((0 : ℤ), (0 : ℤ))} : Finset Pos)) = loopStart) :=
  c4_loop_invariants unitCtx ∅ ∅ 2 loopStart
    ((∅ : Finset Pos), ({((0 : ℤ), (0 : ℤ))} : Finset Pos))
    (by decide) (by decide) (by decide) (by decide) (by decide) (by decide)

/-! ### Claim C5 -/

/-- C5, counterexample: the loop does not terminate for every non-empty
brush: under the brush holding only the offset (1, 1) on a 1-by-1 slice, the
first iteration reaches a state that the body maps to itself while the
continuation condition still holds, so for every fuel the loop fails to
finish; moreover at that reachable stuck state no valid candidate exists
even though the termination condition does not hold. -/
theorem c5_corner_brush_diverges :
    loopCond cornerCtx loopStart = true ∧
    bodyFn cornerCtx loopStart =
      ({((0 : ℤ), (0 : ℤ))}, {((0 : ℤ), (0 : ℤ))}) ∧
    bodyFn cornerCtx ({((0 : ℤ), (0 : ℤ))}, {((0 : ℤ), (0 : ℤ))}) =
      ({((0 : ℤ), (0 : ℤ))}, {((0 : ℤ), (0 : ℤ))}) ∧
    loopCond cornerCtx ({((0 : ℤ), (0 : ℤ))}, {((0 : ℤ), (0 : ℤ))}) = true ∧
    touch_valid_solid cornerCtx {((0 : ℤ), (0 : ℤ))} {((0 : ℤ), (0 : ℤ))} ∪
      touch_valid_void cornerCtx {((0 : ℤ), (0 : ℤ))} {((0 : ℤ), (0 : ℤ))} =
        ∅ ∧
    loopDiverges cornerCtx := by
  have hstuck : ∀ f : ℕ, runLoop cornerCtx f
      ({((0 : ℤ), (0 : ℤ))}, {((0 : ℤ), (0 : ℤ))}) = none := by
    intro f
    induction f with
    | zero =>
      rw [runLoop, show loopCond cornerCtx
        ({((0 : ℤ), (0 : ℤ))}, {((0 : ℤ), (0 : ℤ))}) = true from by decide]
      simp
    | succ n ih =>
      rw [runLoop, show loopCond cornerCtx
        ({((0 : ℤ), (0 : ℤ))}, {((0 : ℤ), (0 : ℤ))}) = true from by decide]
      simp only [if_true]
      rw [show bodyFn cornerCtx ({((0 : ℤ), (0 : ℤ))}, {((0 : ℤ), (0 : ℤ))}) =
        ({((0 : ℤ), (0 : ℤ))}, {((0 : ℤ), (0 : ℤ))}) from by decide]
      exact ih
  refine ⟨by decide, by decide, by decide, by decide, by decide, ?_⟩
  intro fuel
  cases fuel with
  | zero =>
    rw [runLoop, show loopCond cornerCtx loopStart = true from by decide]
    simp
  | succ n =>
    rw [runLoop, show loopCond cornerCtx loopStart = true from by decide]
    simp only [if_true]
    rw [show bodyFn cornerCtx loopStart =
      ({((0 : ℤ), (0 : ℤ))}, {((0 : ℤ), (0 : ℤ))}) from by decide]
    exact hstuck n

/-- C5 (amended): for a brush containing its center offset, if at every
disjoint sub-grid state where the loop condition still holds at least one
valid candidate exists, then the fixed-point loop from the all-false state
terminates within 2 * card(grid) + 1 iterations; moreover every iteration at
a state with a valid candidate commits at least one previously uncommitted
touch position: the sum of committed cardinalities strictly grows. -/
theorem c5_bounded_termination (c : BrushCtx)
    (hB : ((0 : ℤ), (0 : ℤ)) ∈ c.brush)
    (hinv : ∀ v ∈ (grid c.m c.n).powerset, ∀ s ∈ (grid c.m c.n).powerset,
      Disjoint v s → loopCond c (v, s) = true →
      (touch_valid_solid c v s ∪ touch_valid_void c v s).Nonempty) :
    (runLoop c (2 * (grid c.m c.n).card + 1) loopStart).isSome = true ∧
    (∀ v s : Finset Pos,
      (touch_valid_solid c v s ∪ touch_valid_void c v s).Nonempty →
      v.card + s.card <
        (bodyFn c (v, s)).1.card + (bodyFn c (v, s)).2.card) := by
  constructor
  · exact runLoop_term c hB hinv (2 * (grid c.m c.n).card + 1) ∅ ∅
      (Finset.empty_subset _) (Finset.empty_subset _) (by simp) (by simp)
  · exact fun v s hvalid => bodyFn_grows c v s hvalid

/-- Witness for C5 at a concrete instance: the 1-by-1 slice under the center
brush satisfies the valid-candidate hypothesis over its whole state space,
and the loop terminates within the bound. -/
theorem c5_bounded_termination_witness :
    (runLoop unitCtx (2 * (grid unitCtx.m unitCtx.n).card + 1)
      loopStart).isSome = true ∧
    (∀ v s : Finset Pos,
      (touch_valid_solid unitCtx v s ∪ touch_valid_void unitCtx v s).Nonempty →
      v.card + s.card <
        (bodyFn unitCtx (v, s)).1.card + (bodyFn unitCtx (v, s)).2.card) :=
  c5_bounded_termination unitCtx (by decide) (by decide)

/-! ### Claim C2 -/

/-- C2, counterexample: with air at index 0 and a rank-3 input of shape
(1, 1, 1) carrying value 5, the single position is covered by the dilated
committed-solid field returned by the generator, yet the mask returned by the
call carries value 0 there, not 1: the call computes one minus the generator
mask before the air-index check, so with air at index 0 the solid positions
carry 0. -/
theorem c2_air_first_solid_pixel_zero :
    get_air_name matsAirFirst = .ok "air" ∧
    (compute_ordered_names matsAirFirst).indexOf "air" = 0 ∧
    generator (callCtx modAirFirst [1, 1, 1] fun _ => 5) 3 =
      some {((0 : ℤ), (0 : ℤ))} ∧
    planePos modAirFirst.axis (0, 0, 0) ∈
      ({((0 : ℤ), (0 : ℤ))} : Finset Pos) ∧
    callValueAt (brushCall modAirFirst 3 (.single [1, 1, 1] fun _ => 5))
      (0, 0, 0) = some 0 :=
  ⟨rfl, by decide, by decide, by decide, by decide⟩

/-- C2 (amended): for a rank-3 single-tensor input with size 1 along the
constraint axis and at most two materials with air present, when the solver
loop finishes, the generator mask is the dilation of the final
committed-solid field, and the integer mask returned by the call is one minus
that dilated committed-solid indicator when the air material is at index 0
(so the dilated committed-solid positions carry value 0 and the rest carry
1), and is inverted once more — carrying 1 exactly on the dilated
committed-solid positions — when the air material is not at index 0. -/
theorem c2_mask_values (mod : Brush2DModule) (fuel : ℕ)
    (shape : List ℕ) (data : List ℕ → ℚ) (mask : Finset Pos)
    (hlen : mod.mats.length ≤ 2)
    (hrank : shape.length = 3)
    (hax : shape.getD mod.axis 0 = 1)
    (hair : ∃ mt ∈ mod.mats, mt.is_air = true)
    (hgen : generator (callCtx mod shape data) fuel = some mask) :
    (∃ fin, runLoop (callCtx mod shape data) fuel loopStart = some fin ∧
      mask = dilate (callCtx mod shape data) fin.2) ∧
    ∃ nm, get_air_name mod.mats = .ok nm ∧
      ∀ t : ℕ × ℕ × ℕ,
        callValueAt (brushCall mod fuel (.single shape data)) t =
          some (if (compute_ordered_names mod.mats).indexOf nm = 0 then
                  (if planePos mod.axis t ∈ mask then 0 else 1)
                else
                  (if planePos mod.axis t ∈ mask then 1 else 0)) := by
  constructor
  · unfold generator at hgen
    cases hrl : runLoop (callCtx mod shape data) fuel loopStart with
    | none =>
      rw [hrl] at hgen
      simp at hgen
    | some fin =>
      rw [hrl] at hgen
      refine ⟨fin, rfl, ?_⟩
      simpa using hgen.symm
  · obtain ⟨nm, hnm⟩ := get_air_name_ok mod.mats hair
    refine ⟨nm, hnm, ?_⟩
    intro t
    have h1 : ¬ (mod.mats.length > 2) := by omega
    have h2 : ¬ (shape.length ≠ 3) := fun hcon => hcon hrank
    have h3 : ¬ (shape.getD mod.axis 0 ≠ 1) := fun hcon => hcon hax
    simp only [brushCall, if_neg h1, if_neg h2, if_neg h3, hgen, hnm,
      callValueAt, expandDims_planePos]
    by_cases hidx : (compute_ordered_names mod.mats).indexOf nm = 0
    · have hidx' : ¬ ((compute_ordered_names mod.mats).indexOf nm ≠ 0) := by
        simpa using hidx
      simp only [if_neg hidx', if_pos hidx]
      by_cases hm : planePos mod.axis t ∈ mask
      · simp [hm]
      · simp [hm]
    · simp only [if_pos hidx, if_neg hidx]
      by_cases hm : planePos mod.axis t ∈ mask
      · simp [hm]
      · simp [hm]

/-- Witness for C2 at a concrete instance: the air-first two-material catalog
on the 1-by-1-by-1 input of value 5. -/
theorem c2_mask_values_witness :
    callValueAt (brushCall modAirFirst 3 (.single [1, 1, 1] fun _ => 5))
      (0, 0, 0) = some 0 := by
  obtain ⟨-, nm, hnm, hval⟩ := c2_mask_values modAirFirst 3 [1, 1, 1]
    (fun _ => 5) {((0 : ℤ), (0 : ℤ))} (by decide) (by decide) (by decide)
    ⟨⟨"air", 1, true⟩, List.mem_cons_self _ _, rfl⟩ (by decide)
  have hnm' : nm = "air" := by
    have h2 : get_air_name modAirFirst.mats = Except.ok "air" := rfl
    exact Except.ok.inj (hnm.symm.trans h2)
  rw [hval (0, 0, 0), hnm']
  decide

/-! ### Claim C6 -/

/-- C6: every position of the ClosestIndex output is an in-range index of the
allowed inverse-permittivity list whose value has minimal absolute difference
to that position's input value, and whenever another allowed value is at an
absolute distance not larger than the chosen one, the chosen index is the
lower one: ties resolve to the lower index. -/
theorem c6_closest_index_spec {α : Type*} (mats : List Material)
    (arrv : α → ℚ) (p : α)
    (hne : compute_allowed_permittivities mats ≠ []) :
    closestIndex mats arrv p <
      ((compute_allowed_permittivities mats).map fun q => 1 / q).length ∧
    (∀ j < ((compute_allowed_permittivities mats).map fun q => 1 / q).length,
      |arrv p - ((compute_allowed_permittivities mats).map fun q => 1 / q).getD
          (closestIndex mats arrv p) 0| ≤
        |arrv p -
          ((compute_allowed_permittivities mats).map fun q => 1 / q).getD
            j 0|) ∧
    (∀ j < ((compute_allowed_permittivities mats).map fun q => 1 / q).length,
      |arrv p -
          ((compute_allowed_permittivities mats).map fun q => 1 / q).getD
            j 0| ≤
        |arrv p - ((compute_allowed_permittivities mats).map fun q => 1 / q).getD
          (closestIndex mats arrv p) 0| →
      closestIndex mats arrv p ≤ j) := by
  have hlen : 0 <
      ((compute_allowed_permittivities mats).map fun q => 1 / q).length := by
    rw [List.length_map]
    exact List.length_pos.mpr hne
  exact argminIdx_spec
    (fun i => |arrv p -
      ((compute_allowed_permittivities mats).map fun q => 1 / q).getD i 0|)
    ((compute_allowed_permittivities mats).map fun q => 1 / q).length hlen

/-- Witness for C6 at a concrete instance: the air-first catalog with allowed
inverse permittivities (1, 1/2) and input value 3/5. -/
theorem c6_closest_index_spec_witness :
    closestIndex matsAirFirst (fun _ : Unit => (3 : ℚ) / 5) () <
      ((compute_allowed_permittivities matsAirFirst).map fun q => 1 / q).length ∧
    (∀ j < ((compute_allowed_permittivities matsAirFirst).map
        fun q => 1 / q).length,
      |(fun _ : Unit => (3 : ℚ) / 5) () -
          ((compute_allowed_permittivities matsAirFirst).map
            fun q => 1 / q).getD
            (closestIndex matsAirFirst (fun _ : Unit => (3 : ℚ) / 5) ()) 0| ≤
        |(fun _ : Unit => (3 : ℚ) / 5) () -
          ((compute_allowed_permittivities matsAirFirst).map
            fun q => 1 / q).getD j 0|) ∧
    (∀ j < ((compute_allowed_permittivities matsAirFirst).map
        fun q => 1 / q).length,
      |(fun _ : Unit => (3 : ℚ) / 5) () -
          ((compute_allowed_permittivities matsAirFirst).map
            fun q => 1 / q).getD j 0| ≤
        |(fun _ : Unit => (3 : ℚ) / 5) () -
          ((compute_allowed_permittivities matsAirFirst).map
            fun q => 1 / q).getD
            (closestIndex matsAirFirst (fun _ : Unit => (3 : ℚ) / 5) ()) 0| →
      closestIndex matsAirFirst (fun _ : Unit => (3 : ℚ) / 5) () ≤ j) :=
  c6_closest_index_spec matsAirFirst (fun _ : Unit => (3 : ℚ) / 5) ()
    (by decide)

/-! ### Claim C7 -/

/-- C7, counterexample: a catalog holding a single (air) material does not
hold exactly two materials, yet the call raises nothing on a valid rank-3
single-tensor input with axis size 1: the source only rejects more than two
materials. -/
theorem c7_single_material_no_raise :
    modAirOnly.mats.length = 1 ∧
    (brushCall modAirOnly 3 unitInput).isOk = true :=
  ⟨by decide, by decide⟩

/-- C7 (amended): with an air material present in the catalog,
BrushConstraint2D.__call__ raises if and only if the input is a dict of named
tensors, the catalog holds more than two materials, the input rank is not 3,
or the size along the constraint axis is not 1; in particular a single-tensor
rank-3 input of axis size 1 with one or two materials raises nothing. -/
theorem c7_raises_iff (mod : Brush2DModule) (fuel : ℕ) (inp : ParamInput)
    (hair : ∃ mt ∈ mod.mats, mt.is_air = true) :
    (∃ e, brushCall mod fuel inp = .error e) ↔ brushRaises mod inp := by
  cases inp with
  | multi entries =>
    constructor
    · intro _
      trivial
    · intro _
      exact ⟨_, rfl⟩
  | single shape data =>
    simp only [brushRaises]
    by_cases h1 : 2 < mod.mats.length
    · constructor
      · intro _
        exact Or.inl h1
      · intro _
        exact ⟨"BrushConstraint2D currently only implemented for single material and air",
          by simp only [brushCall, if_pos h1]⟩
    · by_cases h2 : shape.length ≠ 3
      · constructor
        · intro _
          exact Or.inr (Or.inl h2)
        · intro _
          exact ⟨"BrushConstraint2D Generator can only work with 2D-Arrays",
            by simp only [brushCall, if_neg h1, if_pos h2]⟩
      · by_cases h3 : shape.getD mod.axis 0 ≠ 1
        · constructor
          · intro _
            exact Or.inr (Or.inr h3)
          · intro _
            exact ⟨"BrushConstraint2D Generator needs array size 1 in axis",
              by simp only [brushCall, if_neg h1, if_neg h2, if_pos h3]⟩
        · constructor
          · rintro ⟨e, he⟩
            exfalso
            obtain ⟨nm, hnm⟩ := get_air_name_ok mod.mats hair
            simp only [brushCall, if_neg h1, if_neg h2, if_neg h3] at he
            cases hgen : generator (callCtx mod shape data) fuel with
            | none =>
              rw [hgen] at he
              simp at he
            | some mask =>
              rw [hgen, hnm] at he
              simp at he
          · rintro (h | h | h) <;> contradiction

/-- Witness for C7 at a concrete instance: the air-first two-material catalog
with a valid rank-3 input raises nothing. -/
theorem c7_raises_iff_witness :
    (∃ e, brushCall modAirFirst 3 unitInput = .error e) ↔
      brushRaises modAirFirst unitInput :=
  c7_raises_iff modAirFirst 3 unitInput
    ⟨⟨"air", 1, true⟩, List.mem_cons_self _ _, rfl⟩

/-! ### Claim C8 -/

/-- C8: for every axis in Fin 3, every 1D column of the PillarDiscretization
output taken along the constrained axis — read in the caller's original axis
order, i.e. after the final transposition (identity for axis 2, swap of the
last two axes for axis 1, rotation of all three for axis 0) — equals a row of
the precomputed allowed-index table. -/
theorem c8_pillar_columns_valid (axis : Fin 3) (d0 d1 d2 : ℕ)
    (data : ℕ × ℕ × ℕ → ℚ) (table : List (List ℕ))
    (metric : List ℚ → List ℕ → ℚ) (i j : ℕ)
    (htab : table ≠ [])
    (hlen : ∀ r ∈ table, r.length = dimAt axis d0 d1 d2) :
    ∃ row ∈ table,
      (List.range (dimAt axis d0 d1 d2)).map
        (fun t => pillarCall axis d0 d1 d2 data table metric
          (tripleAt axis i j t)) = row := by
  have hpos : 0 < table.length := List.length_pos.mpr htab
  have hnear : nearestRow metric table (columnAt axis d0 d1 d2 data i j) <
      table.length :=
    (argminIdx_spec _ _ hpos).1
  have hmem : table.getD (nearestRow metric table
      (columnAt axis d0 d1 d2 data i j)) [] ∈ table := by
    rw [List.getD_eq_getElem table [] hnear]
    exact List.getElem_mem _
  refine ⟨table.getD (nearestRow metric table
    (columnAt axis d0 d1 d2 data i j)) [], hmem, ?_⟩
  have hrowlen : (table.getD (nearestRow metric table
      (columnAt axis d0 d1 d2 data i j)) []).length =
      dimAt axis d0 d1 d2 := hlen _ hmem
  have hpt : ∀ t, pillarCall axis d0 d1 d2 data table metric
      (tripleAt axis i j t) =
      (table.getD (nearestRow metric table
        (columnAt axis d0 d1 d2 data i j)) []).getD t 0 := by
    intro t
    fin_cases axis <;> rfl
  rw [← hrowlen]
  calc (List.range (table.getD (nearestRow metric table
        (columnAt axis d0 d1 d2 data i j)) []).length).map
        (fun t => pillarCall axis d0 d1 d2 data table metric
          (tripleAt axis i j t))
      = (List.range (table.getD (nearestRow metric table
          (columnAt axis d0 d1 d2 data i j)) []).length).map
          (fun t => (table.getD (nearestRow metric table
            (columnAt axis d0 d1 d2 data i j)) []).getD t 0) := by
        exact List.map_congr_left fun t _ => hpt t
    _ = table.getD (nearestRow metric table
          (columnAt axis d0 d1 d2 data i j)) [] := map_range_getD _

/-- Witness for C8 at a concrete instance: a two-row table of columns of
length 2 along axis 0. -/
theorem c8_pillar_columns_valid_witness :
    ∃ row ∈ [[0, 1], [1, 1]],
      (List.range (dimAt 0 2 1 1)).map
        (fun t => pillarCall 0 2 1 1 (fun _ => 0) [[0, 1], [1, 1]]
          (fun _ _ => 0) (tripleAt 0 0 0 t)) = row :=
  c8_pillar_columns_valid 0 2 1 1 (fun _ => 0) [[0, 1], [1, 1]]
    (fun _ _ => 0) 0 0 (by decide) (by decide)

/-! ### Claim C9 -/

/-- C9: for each discretization variant, the gradient bridge returns the
discrete forward result of the call, while the reported derivative of the
output with respect to the continuous input is the identity map on the
upstream gradient, independent of the input values. -/
theorem c9_gradient_bridge_identity {α : Type*} (mats : List Material)
    (arrv : α → ℚ) (g : α → ℚ) (mod : Brush2DModule) (fuel : ℕ)
    (shape : List ℕ) (data : List ℕ → ℚ) (gd : List ℕ → ℚ)
    (axis : Fin 3) (d0 d1 d2 : ℕ) (pdata : ℕ × ℕ × ℕ → ℚ)
    (table : List (List ℕ)) (metric : List ℚ → List ℕ → ℚ)
    (pg : ℕ × ℕ × ℕ → ℚ) :
    (closestIndexWithGrad mats arrv).1 = closestIndex mats arrv ∧
    (closestIndexWithGrad mats arrv).2 g = g ∧
    (brushCallWithGrad mod fuel shape data).1 =
      brushCall mod fuel (.single shape data) ∧
    (brushCallWithGrad mod fuel shape data).2 gd = gd ∧
    (pillarCallWithGrad axis d0 d1 d2 pdata table metric).1 =
      pillarCall axis d0 d1 d2 pdata table metric ∧
    (pillarCallWithGrad axis d0 d1 d2 pdata table metric).2 pg = pg :=
  ⟨rfl, rfl, rfl, rfl, rfl, rfl⟩

/-! ### Claim C10 -/

/-- C10: reset_array_container returns a container whose E and H fields are
all zero while inv_permittivities, inv_permeabilities, electric_conductivity
and magnetic_conductivity are unchanged; and its detector_states always equal
the input's detector_states, even when reset_detector_states is true, because
the recomputed detector states are dropped by a duplicated boundary-state
assignment. -/
theorem c10_reset_array_container (arrays : ArrayContainer)
    (objects : ObjectContainer) (rd rr : Bool) :
    (∀ i, (reset_array_container arrays objects rd rr).E i = 0) ∧
    (∀ i, (reset_array_container arrays objects rd rr).H i = 0) ∧
    (reset_array_container arrays objects rd rr).inv_permittivities =
      arrays.inv_permittivities ∧
    (reset_array_container arrays objects rd rr).inv_permeabilities =
      arrays.inv_permeabilities ∧
    (reset_array_container arrays objects rd rr).electric_conductivity =
      arrays.electric_conductivity ∧
    (reset_array_container arrays objects rd rr).magnetic_conductivity =
      arrays.magnetic_conductivity ∧
    (reset_array_container arrays objects rd rr).detector_states =
      arrays.detector_states :=
  ⟨fun _ => mul_zero _, fun _ => mul_zero _, rfl, rfl, rfl, rfl, rfl⟩

end Fdtdx
